import Mathlib

/-!
Verification development for the cozy-stack storage core.

This file gives a shallow embedding of the storage layer:
- the afero-backed VFS (`vfsafero` package): the write-session `Close`
  rollback protocol, `CreateFile`'s backup rename, `safeRenameFile`,
  `safeRenameDir`, and the recursive destroy functions;
- the application bulk installer (`pkg/apps/copier.go`): the swift and
  afero variants of `Start`, `Copy`, `Abort`, `Commit`.

Backend calls (stat, rename, object moves, indexer calls, ...) are
modelled by explicit oracles: a function argument gives the outcome of
each fallible external call, and state-changing operations act on an
explicit store value. Go `error` values are modelled by `Option` of an
error taxonomy; `nil` is `none`.
-/

set_option autoImplicit false

namespace CozyStorage

/-- The error taxonomy of the storage layer. `backend n` stands for an
opaque backend / indexer error (an `afero`, OS or couchdb error that the
code only passes through); the named constructors model the sentinel
errors the source compares against (`os.ErrExist`, `os.ErrNotExist`,
`vfs.ErrConflict`, `vfs.ErrInvalidHash`, `vfs.ErrContentLengthMismatch`,
`vfs.ErrNonAbsolutePath`, `vfs.ErrForbiddenDocMove`,
`swift.ContainerNotFound`). -/
inductive Err where
  | nonAbsolutePath
  | forbiddenDocMove
  | errExist
  | notExist
  | conflict
  | invalidHash
  | contentLengthMismatch
  | containerNotFound
  | backend (code : Nat)
  deriving DecidableEq

/-- `os.IsNotExist` on the modelled errors: only the not-found sentinel
satisfies it. -/
def goIsNotExist (e : Err) : Bool := decide (e = Err.notExist)

/-! ## Go `path` and `strings` helpers

The source uses `path.Clean`, `path.IsAbs`, `path.Join`, `path.Dir`,
`strings.HasPrefix` and `strings.TrimPrefix`. These are modelled at the
character-list level so that the proofs can proceed by list induction. -/

/-- Splits a character list at slashes into its nonempty path components.
`acc` holds the characters of the current component in reverse order. -/
def compsAux : List Char → List Char → List String
  | [], acc => if acc = [] then [] else [String.mk acc.reverse]
  | c :: r, acc =>
    if c = '/' then
      if acc = [] then compsAux r [] else String.mk acc.reverse :: compsAux r []
    else
      compsAux r (c :: acc)

/-- The slash-separated components of a path, empty components dropped. -/
def pathComps (s : String) : List String := compsAux s.toList []

/-- `strings.HasPrefix s pre`. -/
def strHasPref (s pre : String) : Bool := pre.toList.isPrefixOf s.toList

/-- `strings.TrimPrefix s pre`. -/
def strTrimPref (s pre : String) : String :=
  if strHasPref s pre then String.mk (s.toList.drop pre.toList.length) else s

/-- `path.IsAbs`: the path starts with a slash. -/
def goIsAbs (p : String) : Bool := decide (p.toList.head? = some '/')

/-- The `..`-elimination pass of `path.Clean` over the list of components
(`"."` components are dropped; a `..` pops the previous component, is
dropped at the root of a rooted path, and is kept at the head of a
relative path). `out` is the output so far in reverse order. -/
def cleanFold (rooted : Bool) : List String → List String → List String
  | out, [] => out
  | out, c :: rest =>
    if c = "." then cleanFold rooted out rest
    else if c = ".." then
      match out with
      | [] => if rooted then cleanFold rooted [] rest else cleanFold rooted [".."] rest
      | a :: t =>
        if a = ".." then cleanFold rooted (".." :: a :: t) rest
        else cleanFold rooted t rest
    else cleanFold rooted (c :: out) rest

/-- Joins path components with single slashes. -/
def joinComps : List String → String
  | [] => ""
  | [c] => c
  | c :: rest => c ++ "/" ++ joinComps rest

/-- `path.Clean`: shortest lexically equivalent path. A rooted path gets
the `..`-at-root elimination and a leading slash back; an empty result
is `/` (rooted) or `.` (relative). -/
def goPathClean (p : String) : String :=
  if p = "" then "."
  else if goIsAbs p then
    (if joinComps ((cleanFold true [] (pathComps p)).reverse) = "" then "/"
     else "/" ++ joinComps ((cleanFold true [] (pathComps p)).reverse))
  else
    (if joinComps ((cleanFold false [] (pathComps p)).reverse) = "" then "."
     else joinComps ((cleanFold false [] (pathComps p)).reverse))

/-- The characters of a path up to and including its last slash
(the `dir` half of Go `path.Split`). -/
def keepThroughLastSlash : List Char → List Char
  | [] => []
  | c :: r =>
    let rest := keepThroughLastSlash r
    if rest = [] then (if c = '/' then ['/'] else []) else c :: rest

/-- `path.Dir`. -/
def goPathDir (p : String) : String :=
  goPathClean (String.mk (keepThroughLastSlash p.toList))

/-- `path.Join`: joins the nonempty elements with slashes and cleans the
result; all elements empty gives the empty string. -/
def goPathJoinList (elems : List String) : String :=
  let s := joinComps (elems.filter (fun e => e ≠ ""))
  if s = "" then "" else goPathClean s

/-- A path component is good when it is nonempty and slash-free.
All components produced by `pathComps` and kept by `cleanFold` are good. -/
def goodComp (c : String) : Prop := c ≠ "" ∧ '/' ∉ c.toList

/-- `dst` is a strict descendant of `src`: the component list of `src` is
a strict prefix of the component list of `dst`. (This is the
spec-side notion used to state the move-validation claim; it is compared
against the source's slash-prefix test.) -/
def isStrictDescendant (dst src : String) : Bool :=
  (pathComps src).isPrefixOf (pathComps dst) &&
    decide ((pathComps src).length < (pathComps dst).length)

/-! ## vfsafero: documents and rename helpers -/

/-- The fields of `vfs.FileDoc` the write pipeline touches. `md5` models
`MD5Sum` (`none` is the nil slice, the digest itself is abstracted to a
number), `byteSize` models the signed `ByteSize`, `metadata` the
extracted metadata, `createdAt` the creation timestamp. -/
structure FileDoc where
  id : String
  rev : String
  md5 : Option Nat
  byteSize : Int
  metadata : Option Nat := none
  createdAt : Nat := 0
  deriving DecidableEq

/-- `safeRenameFile(fs, oldpath, newpath)`: clean both paths, require both
absolute, fail with `os.ErrExist` when the destination stats as existing,
pass a non-not-found stat error through, then rename. The backend is an
oracle pair: `stat p = none` means `Stat` succeeded (the path exists),
`stat p = some e` is the stat error; `ren old new` is the error of the
backend `Rename` (`Err.notExist` when the source is gone). -/
def safeRenameFile (stat : String → Option Err) (ren : String → String → Option Err)
    (oldpath newpath : String) : Option Err :=
  let np := goPathClean newpath
  let op := goPathClean oldpath
  if !(goIsAbs np && goIsAbs op) then some Err.nonAbsolutePath
  else
    match stat np with
    | none => some Err.errExist
    | some e => if goIsNotExist e then ren op np else some e

/-- Outcome of `safeRenameDir`: either a validation/stat failure with the
returned error, or the backend `Rename` was reached with the given
cleaned source and destination (its own backend result is abstracted). -/
inductive RenameDirResult where
  | failed (e : Err)
  | renamed (oldp newp : String)
  deriving DecidableEq

/-- `safeRenameDir(afs, oldpath, newpath)`: clean both paths, require both
absolute, refuse a destination lying under `oldpath + "/"`, fail with
`os.ErrExist` when the destination stats as existing, pass a
non-not-found stat error through, then hand over to the backend rename. -/
def safeRenameDir (stat : String → Option Err) (oldpath newpath : String) :
    RenameDirResult :=
  let np := goPathClean newpath
  let op := goPathClean oldpath
  if !(goIsAbs np && goIsAbs op) then .failed Err.nonAbsolutePath
  else if strHasPref np (op ++ "/") then .failed Err.forbiddenDocMove
  else
    match stat np with
    | none => .failed Err.errExist
    | some e => if goIsNotExist e then .renamed op np else .failed e

/-! ## vfsafero: CreateFile -/

/-- The oracles for the backend calls made by `CreateFile`:
`stat`/`ren` are as in `safeRenameFile`, `createExcl p` is the error of
`safeCreateFile` (`OpenFile` with `O_WRONLY|O_CREATE|O_EXCL`). -/
structure CreateFileEnv where
  stat : String → Option Err
  ren : String → String → Option Err
  createExcl : String → Option Err

/-- The `aferoFileCreation` value built by a successful `CreateFile`
(handle, hash and extractor state are created fresh and omitted). -/
structure CreationHandle where
  newpath : String
  bakpath : String
  newdoc : FileDoc
  olddoc : Option FileDoc
  deriving DecidableEq

/-- `aferoVFS.CreateFile(newdoc, olddoc)` with the resolved target path
given as `newpath` (the indexer path resolution is not modelled). When
`olddoc` is present the current object is first renamed to the hidden
backup path `/.<id>_<rev>`; a not-found failure of that rename is mapped
to `vfs.ErrConflict`, every other failure is returned as-is. Then the
new object is exclusively created at the final path. -/
def CreateFile (env : CreateFileEnv) (newdoc : FileDoc) (olddoc : Option FileDoc)
    (newpath : String) : Except Err CreationHandle :=
  match olddoc with
  | some od =>
    let bakpath := "/." ++ od.id ++ "_" ++ od.rev
    match safeRenameFile env.stat env.ren newpath bakpath with
    | some e => .error (if goIsNotExist e then Err.conflict else e)
    | none =>
      let nd := { newdoc with id := od.id, rev := od.rev, createdAt := od.createdAt }
      match env.createExcl newpath with
      | some e => .error e
      | none => .ok { newpath, bakpath, newdoc := nd, olddoc := some od }
  | none =>
    match env.createExcl newpath with
    | some e => .error e
    | none => .ok { newpath, bakpath := "", newdoc, olddoc := none }

/-! ## vfsafero: the write session Close -/

/-- A backend file store for the close protocol: contents by path. -/
def AFiles := String → Option Nat

/-- `fs.Remove p` (the source ignores its error; a missing path leaves
the store unchanged). -/
def aRemove (fs : AFiles) (p : String) : AFiles :=
  fun q => if q = p then none else fs q

/-- `fs.Rename old new` (error ignored by the source): moves the content
at `old` over `new`; a missing source leaves the store unchanged. -/
def aRename (fs : AFiles) (old new : String) : AFiles :=
  match fs old with
  | none => fs
  | some c => fun q => if q = new then some c else if q = old then none else fs q

/-- The state of an `aferoFileCreation` when `Close` is called: the byte
count `w`, the digest `hashVal` of `hash.Sum(nil)`, the recorded write
error `werr` (`f.err`, a backend error code), the documents and paths. -/
structure CloseInput where
  w : Int
  hashVal : Nat
  werr : Option Nat
  newdoc : FileDoc
  olddoc : Option FileDoc
  newpath : String
  bakpath : String

/-- Oracles for the external calls in `Close`: the backend handle close
(`f.f.Close`), the metadata extractor (`none` when it was abandoned,
`some (.error _)` when its own `Close` errs, `some (.ok m)` the result),
and the indexer `UpdateFileDoc`/`CreateFileDoc` call. Backend and
indexer failures are opaque error codes. -/
structure CloseEnv where
  closeErr : Option Nat
  metaResult : Option (Except Nat Nat)
  indexerErr : Option Nat

/-- The indexer call issued by a successful write path. -/
inductive IndexerCall where
  | update (old new : FileDoc)
  | create (new : FileDoc)
  deriving DecidableEq

/-- The metadata-extractor step of `Close`: when the extractor is alive
and its own `Close` succeeds, its result is stored in the document. -/
def metaDoc (metaResult : Option (Except Nat Nat)) (d : FileDoc) : FileDoc :=
  match metaResult with
  | some (.ok m) => { d with metadata := some m }
  | _ => d

/-- The hash/size checks and the indexer call at the end of `Close`:
an absent declared hash adopts the computed digest before the equality
check; a negative declared size adopts the written count before the
equality check; then `UpdateFileDoc` or `CreateFileDoc` runs. -/
def closeChecks (hashVal : Nat) (w : Int) (olddoc : Option FileDoc)
    (indexerErr : Option Nat) (nd : FileDoc) :
    Option Err × FileDoc × Option IndexerCall :=
  let md5sum := hashVal
  let nd := if nd.md5 = none then { nd with md5 := some md5sum } else nd
  if nd.md5 ≠ some md5sum then (some Err.invalidHash, nd, none)
  else
    let nd := if nd.byteSize < 0 then { nd with byteSize := w } else nd
    if nd.byteSize ≠ w then (some Err.contentLengthMismatch, nd, none)
    else
      match olddoc with
      | some od => (indexerErr.map Err.backend, nd, some (.update od nd))
      | none => (indexerErr.map Err.backend, nd, some (.create nd))

/-- The body of `Close` before the deferred cleanup: the returned error,
the final `newdoc` value, and the indexer call that was issued (`none`
when `Close` returned before reaching the indexer). -/
def closeBody (env : CloseEnv) (f : CloseInput) :
    Option Err × FileDoc × Option IndexerCall :=
  match env.closeErr with
  | some c => (some (Err.backend c), f.newdoc, none)
  | none =>
    match f.werr with
    | some c => (some (Err.backend c), f.newdoc, none)
    | none =>
      closeChecks f.hashVal f.w f.olddoc env.indexerErr
        (metaDoc env.metaResult f.newdoc)

/-- The result of `Close`: its error, the backend store after the
deferred cleanup, and the indexer call that was issued. -/
structure CloseResult where
  err : Option Err
  fs : AFiles
  indexed : Option IndexerCall

/-- `aferoFileCreation.Close`: runs the body, then the deferred cleanup:
on success over an old document the backup is removed; on error over an
old document the backup is renamed back over the final path; on error
without an old document the new object is removed. -/
def aferoFileCreationClose (env : CloseEnv) (f : CloseInput) (fs0 : AFiles) :
    CloseResult :=
  let r := closeBody env f
  let fs1 :=
    match r.1, f.olddoc with
    | none, some _ => aRemove fs0 f.bakpath
    | some _, some _ => aRename fs0 f.bakpath f.newpath
    | some _, none => aRemove fs0 f.newpath
    | none, none => fs0
  { err := r.1, fs := fs1, indexed := r.2.2 }

/-! ## vfsafero: recursive destroy

The indexer's `DirIterator` yields, per directory, a finite sequence of
child directories and files; this is modelled by a finite tree. Backend
and indexer calls are oracles keyed by the document identifier, and the
side effects are recorded as a trace of successful operations. -/

/-- A directory entry as yielded by the indexer iterator. -/
inductive Node where
  | dir (id : String) (children : List Node)
  | file (id : String)

/-- Oracles for the destroy functions, keyed by document id:
`doc.Path` resolution, the backend `Remove` (files) and `RemoveAll`
(directories), and the indexer `DeleteFileDoc` / `DeleteDirDoc`. -/
structure DestroyEnv where
  filePathErr : String → Option Err
  fileRemoveErr : String → Option Err
  fileDocErr : String → Option Err
  dirPathErr : String → Option Err
  dirRemoveAllErr : String → Option Err
  dirDocErr : String → Option Err

/-- A successful destructive operation, for the trace. -/
inductive Act where
  | fileRemoved (id : String)
  | fileDocDeleted (id : String)
  | dirRemoved (id : String)
  | dirDocDeleted (id : String)
  deriving DecidableEq

/-- `aferoVFS.DestroyFile`: resolve the path, remove the backend object,
then delete the file document; the first error is returned. -/
def DestroyFile (env : DestroyEnv) (id : String) : List Act × Option Err :=
  match env.filePathErr id with
  | some e => ([], some e)
  | none =>
    match env.fileRemoveErr id with
    | some e => ([], some e)
    | none =>
      match env.fileDocErr id with
      | some e => ([.fileRemoved id], some e)
      | none => ([.fileRemoved id, .fileDocDeleted id], none)

mutual

/-- One step of the `DestroyDirContent` loop body: recurse into a child
directory, or destroy a child file. -/
def destroyChild (env : DestroyEnv) : Node → List Act × Option Err
  | .dir id cs => DestroyDirAndContent env id cs
  | .file id => DestroyFile env id

/-- `aferoVFS.DestroyDirContent`: iterate the children; the first error
ends the loop and is returned. -/
def DestroyDirContent (env : DestroyEnv) : List Node → List Act × Option Err
  | [] => ([], none)
  | n :: rest =>
    match destroyChild env n with
    | (t, some e) => (t, some e)
    | (t, none) =>
      let r := DestroyDirContent env rest
      (t ++ r.1, r.2)

/-- `aferoVFS.DestroyDirAndContent` on a directory with identifier `id`
and iterator contents `cs`: destroy the content, then resolve the
directory path, `RemoveAll` it, and delete the directory document. -/
def DestroyDirAndContent (env : DestroyEnv) (id : String) (cs : List Node) :
    List Act × Option Err :=
  match DestroyDirContent env cs with
  | (t, some e) => (t, some e)
  | (t, none) =>
    match env.dirPathErr id with
    | some e => (t, some e)
    | none =>
      match env.dirRemoveAllErr id with
      | some e => (t, some e)
      | none =>
        match env.dirDocErr id with
        | some e => (t ++ [.dirRemoved id], some e)
        | none => (t ++ [.dirRemoved id, .dirDocDeleted id], none)

end

/-! ## Bulk installer, swift variant (`swiftCopier`) -/

/-- The swift container contents (object names; object bodies are not
needed by the claims) plus whether the container itself exists. -/
structure SwiftState where
  objs : List String
  containerExists : Bool
  deriving DecidableEq

/-- The fields of `swiftCopier` that evolve. -/
structure SwiftCopier where
  appObj : String := ""
  tmpObj : String := ""
  started : Bool := false
  deriving DecidableEq

/-- Oracles for the swift connection: the non-not-found error of the
`Object` probe, the non-not-found error of the `Container` probe, the
`ContainerCreate` error, the `ObjectNamesAll` error, the per-source
`ObjectMove` error, the `BulkDelete` error, the marker `ObjectCreate`
and close errors, and the random staging name. -/
structure SwiftEnv where
  objectProbeErr : Option Err := none
  containerProbeErr : Option Err := none
  containerCreateErr : Option Err := none
  listErr : Option Err := none
  moveErr : String → Option Err := fun _ => none
  bulkDeleteErr : Option Err := none
  markerCreateErr : Option Err := none
  markerCloseErr : Option Err := none
  tmpName : String := "R"

/-- Result of a `Start` call. -/
structure StartResult (σ : Type) (κ : Type) where
  found : Bool
  err : Option Err
  copier : κ
  state : σ

/-- `swiftCopier.Start(slug, version)`: probe the completion-marker
object at `slug/version`; if present report found with no further calls.
Otherwise ensure the container exists (creating it when the probe says
not-found), allocate the staging prefix and set `started`. A container
probe error other than not-found is returned, but only after the staging
prefix and `started` flag were set. -/
def swiftStart (env : SwiftEnv) (st : SwiftState) (c : SwiftCopier)
    (slug version : String) : StartResult SwiftState SwiftCopier :=
  let appObj := goPathJoinList [slug, version]
  let c := { c with appObj }
  if st.objs.contains appObj then
    { found := true, err := none, copier := c, state := st }
  else
    match env.objectProbeErr with
    | some e => { found := false, err := some e, copier := c, state := st }
    | none =>
      let probe : Option Err :=
        if st.containerExists then env.containerProbeErr
        else some Err.containerNotFound
      match probe with
      | some Err.containerNotFound =>
        match env.containerCreateErr with
        | some e => { found := false, err := some e, copier := c, state := st }
        | none =>
          { found := false, err := none,
            copier := { c with tmpObj := "tmp-" ++ env.tmpName ++ "/", started := true },
            state := { st with containerExists := true } }
      | probeErr =>
        { found := false, err := probeErr,
          copier := { c with tmpObj := "tmp-" ++ env.tmpName ++ "/", started := true },
          state := st }

/-- Result of a `Copy` call: the precondition `panic`, or the normal
return with the updated store. -/
inductive CopyResult (σ : Type) where
  | panicked
  | ok (st : σ)
  | failed (e : Err) (st : σ)
  deriving DecidableEq

/-- Oracles for one `Copy` call, shared by both variants: the object /
file creation error, the `io.Copy` error, the gzip writer close error
and the handle close error (the last one overrides any earlier error in
the swift and afero defers). -/
structure CopyEnv where
  createErr : Option Err := none
  copyErr : Option Err := none
  gwCloseErr : Option Err := none
  handleCloseErr : Option Err := none

/-- Error plumbing of the deferred closes shared by both `Copy` bodies:
the gzip close error counts only when no error was recorded, the handle
close error overwrites the named return unconditionally. -/
def copyDeferredErr (env : CopyEnv) : Option Err :=
  let e1 := env.copyErr
  let e2 := match e1 with
    | some e => some e
    | none => env.gwCloseErr
  match env.handleCloseErr with
  | some e => some e
  | none => e2

/-- `swiftCopier.Copy(stat, src)`: panics when `Start` has not set
`started`; otherwise creates the gzip-compressed object under the
staging prefix. `name` is `stat.Name()`; the content-type detection does
not affect the store shape and is omitted. -/
def swiftCopy (env : CopyEnv) (st : SwiftState) (c : SwiftCopier) (name : String) :
    CopyResult SwiftState :=
  if !c.started then .panicked
  else
    let objName := goPathJoinList [c.tmpObj, name]
    match env.createErr with
    | some e => .failed e st
    | none =>
      let st := { st with objs := st.objs ++ [objName] }
      match copyDeferredErr env with
      | some e => .failed e st
      | none => .ok st

/-- `swiftCopier.Abort`: list the objects under the staging prefix and
bulk-delete them. -/
def swiftAbort (env : SwiftEnv) (st : SwiftState) (c : SwiftCopier) :
    Option Err × SwiftState :=
  match env.listErr with
  | some e => (some e, st)
  | none =>
    match env.bulkDeleteErr with
    | some e => (some e, st)
    | none =>
      (none, { st with objs := st.objs.filter (fun n => !(strHasPref n c.tmpObj)) })

/-- The move loop of `swiftCopier.Commit` followed by the marker
creation: each staged object is moved to the final prefix; on a move
failure the loop returns `f.Abort()`'s result; after all moves the
zero-length completion marker is created at `appObj`. -/
def swiftCommitLoop (env : SwiftEnv) (c : SwiftCopier) :
    List String → SwiftState → Option Err × SwiftState
  | [], st =>
    match env.markerCreateErr with
    | some e => (some e, st)
    | none =>
      match env.markerCloseErr with
      | some e => (some e, st)
      | none => (none, { st with objs := st.objs ++ [c.appObj] })
  | src :: rest, st =>
    match env.moveErr src with
    | some _ => swiftAbort env st c
    | none =>
      let dst := goPathJoinList [c.appObj, strTrimPref src c.tmpObj]
      swiftCommitLoop env c rest { st with objs := st.objs.erase src ++ [dst] }

/-- `swiftCopier.Commit`: list the staged objects, run the move loop,
then create the completion marker. -/
def swiftCommit (env : SwiftEnv) (st : SwiftState) (c : SwiftCopier) :
    Option Err × SwiftState :=
  match env.listErr with
  | some e => (some e, st)
  | none =>
    swiftCommitLoop env c (st.objs.filter (fun n => strHasPref n c.tmpObj)) st

/-! ## Bulk installer, afero variant (`aferoCopier`) -/

/-- The afero store for the installer: the set of directories and the
files (path, content token). -/
structure AfState where
  dirs : List String
  files : List (String × Nat)
  deriving DecidableEq

/-- The fields of `aferoCopier` that evolve. -/
structure AfCopier where
  appDir : String := ""
  tmpDir : String := ""
  started : Bool := false
  deriving DecidableEq

/-- Replaces the prefix directory `old` by `new` in `p` (the effect of a
directory rename on a path below it). -/
def replacePrefDir (p old new : String) : String :=
  if p = old then new
  else if strHasPref p (old ++ "/") then new ++ String.mk (p.toList.drop old.toList.length)
  else p

/-- `fs.Rename(tmpDir, appDir)` on a directory tree: every directory and
file path at or below `tmpDir` is relocated below `appDir`. -/
def afRenameTree (st : AfState) (old new : String) : AfState :=
  { dirs := st.dirs.map (fun p => replacePrefDir p old new),
    files := st.files.map (fun f => (replacePrefDir f.1 old new, f.2)) }

/-- Oracles for the afero installer: the `DirExists` stat error, the
`MkdirAll` error per directory, the `TempDir` error and random suffix,
the `Rename` error injected beyond the modelled exists/not-found cases,
the `RemoveAll` error, and the per-copy environment content token. -/
structure AfEnv where
  dirExistsErr : Option Err := none
  mkdirErr : String → Option Err := fun _ => none
  tmpDirErr : Option Err := none
  tmpName : String := "R"
  renameErr : Option Err := none
  removeAllErr : Option Err := none
  content : Nat := 0

/-- `MkdirAll` on the modelled store: ensures the directory is present
(intermediate parents are abstracted into the same insertion). -/
def afMkdirAll (st : AfState) (d : String) : AfState :=
  if st.dirs.contains d then st else { st with dirs := st.dirs ++ [d] }

/-- `aferoCopier.Start(slug, version)`: `appDir := path.Join("/", slug,
version)`; when that directory already exists (or `DirExists` fails)
return immediately with no mutation; otherwise `MkdirAll` its parent,
allocate a fresh temporary directory under it and set `started`. -/
def aferoStart (env : AfEnv) (st : AfState) (c : AfCopier)
    (slug version : String) : StartResult AfState AfCopier :=
  let appDir := goPathJoinList ["/", slug, version]
  let c := { c with appDir }
  let ex := st.dirs.contains appDir
  let exErr : Option Err := if ex then none else env.dirExistsErr
  if ex || !(exErr = none : Bool) then
    { found := ex, err := exErr, copier := c, state := st }
  else
    let dir := goPathDir appDir
    match env.mkdirErr dir with
    | some e => { found := false, err := some e, copier := c, state := st }
    | none =>
      let st := afMkdirAll st dir
      match env.tmpDirErr with
      | some e => { found := false, err := some e, copier := c, state := st }
      | none =>
        let tmpDir := goPathJoinList [dir, "tmp" ++ env.tmpName]
        { found := false, err := none,
          copier := { c with tmpDir, started := true },
          state := { st with dirs := st.dirs ++ [tmpDir] } }

/-- `aferoCopier.Copy(stat, src)`: panics when `Start` has not set
`started`; otherwise creates `path.Join(tmpDir, name) + ".gz"`,
making its parent directory first. -/
def aferoCopy (cenv : CopyEnv) (env : AfEnv) (st : AfState) (c : AfCopier)
    (name : String) : CopyResult AfState :=
  if !c.started then .panicked
  else
    let fullpath := goPathJoinList [c.tmpDir, name] ++ ".gz"
    let dir := goPathDir fullpath
    match env.mkdirErr dir with
    | some e => .failed e st
    | none =>
      let st := afMkdirAll st dir
      match cenv.createErr with
      | some e => .failed e st
      | none =>
        let st := { st with files := st.files ++ [(fullpath, env.content)] }
        match copyDeferredErr cenv with
        | some e => .failed e st
        | none => .ok st

/-- `aferoCopier.Commit`: a single `fs.Rename(tmpDir, appDir)`; it fails
when the injected rename error fires, when the destination already
exists, or when the staging directory is gone; on success the whole
staging tree is relocated. No marker file is written. -/
def aferoCommit (env : AfEnv) (st : AfState) (c : AfCopier) :
    Option Err × AfState :=
  match env.renameErr with
  | some e => (some e, st)
  | none =>
    if st.dirs.contains c.appDir then (some Err.errExist, st)
    else if !st.dirs.contains c.tmpDir then (some Err.notExist, st)
    else (none, afRenameTree st c.tmpDir c.appDir)

/-- `aferoCopier.Abort`: `fs.RemoveAll(tmpDir)`. -/
def aferoAbort (env : AfEnv) (st : AfState) (c : AfCopier) :
    Option Err × AfState :=
  match env.removeAllErr with
  | some e => (some e, st)
  | none =>
    (none,
      { dirs := st.dirs.filter
          (fun p => !(p = c.tmpDir || strHasPref p (c.tmpDir ++ "/"))),
        files := st.files.filter
          (fun f => !(f.1 = c.tmpDir || strHasPref f.1 (c.tmpDir ++ "/"))) })

/-! ## Theorems -/

/-- The document carried by an indexer call. -/
def IndexerCall.doc : IndexerCall → FileDoc
  | .update _ n => n
  | .create n => n

/-- The metadata step does not change the declared hash. -/
theorem metaDoc_md5 (mr : Option (Except Nat Nat)) (d : FileDoc) :
    (metaDoc mr d).md5 = d.md5 := by
  rcases mr with _ | e
  · rfl
  · rcases e with e | m <;> rfl

/-- The metadata step does not change the declared size. -/
theorem metaDoc_byteSize (mr : Option (Except Nat Nat)) (d : FileDoc) :
    (metaDoc mr d).byteSize = d.byteSize := by
  rcases mr with _ | e
  · rfl
  · rcases e with e | m <;> rfl

/-- Helper: the body outcome on a declared-hash mismatch. -/
theorem closeBody_md5_mismatch (env : CloseEnv) (f : CloseInput)
    (hc : env.closeErr = none) (hw : f.werr = none) (h : Nat)
    (hmd5 : f.newdoc.md5 = some h) (hne : h ≠ f.hashVal) :
    (closeBody env f).1 = some Err.invalidHash ∧ (closeBody env f).2.2 = none := by
  unfold closeBody
  rw [hc, hw]
  have h1 : (metaDoc env.metaResult f.newdoc).md5 = some h := by
    rw [metaDoc_md5, hmd5]
  simp [closeChecks, h1, hne]

/-- Helper: the body outcome on a declared-size mismatch with the hash
check passing. -/
theorem closeBody_size_mismatch (env : CloseEnv) (f : CloseInput)
    (hc : env.closeErr = none) (hw : f.werr = none)
    (hmd5 : f.newdoc.md5 = none ∨ f.newdoc.md5 = some f.hashVal)
    (hnn : 0 ≤ f.newdoc.byteSize) (hne : f.newdoc.byteSize ≠ f.w) :
    (closeBody env f).1 = some Err.contentLengthMismatch ∧
    (closeBody env f).2.2 = none := by
  unfold closeBody
  rw [hc, hw]
  have hlt : ¬ f.newdoc.byteSize < 0 := not_lt.mpr hnn
  rcases hmd5 with hmd5 | hmd5
  · have h1 : (metaDoc env.metaResult f.newdoc).md5 = none := by
      rw [metaDoc_md5, hmd5]
    simp [closeChecks, h1, metaDoc_byteSize, hlt, hne]
  · have h1 : (metaDoc env.metaResult f.newdoc).md5 = some f.hashVal := by
      rw [metaDoc_md5, hmd5]
    simp [closeChecks, h1, metaDoc_byteSize, hlt, hne]

/-- Helper: the deferred cleanup on any erroring close restores the
backup over the final path (old document present) or deletes the new
object (no old document). -/
theorem close_defer_rollback (env : CloseEnv) (f : CloseInput) (fs0 : AFiles)
    (e : Err) (herr : (closeBody env f).1 = some e) :
    (∀ od p, f.olddoc = some od → fs0 f.bakpath = some p →
      (aferoFileCreationClose env f fs0).fs f.newpath = some p) ∧
    (f.olddoc = none → (aferoFileCreationClose env f fs0).fs f.newpath = none) := by
  rcases hcb : closeBody env f with ⟨e1, nd1, ic1⟩
  rw [hcb] at herr
  have he1 : e1 = some e := herr
  subst he1
  constructor
  · intro od p hod hbak
    simp only [aferoFileCreationClose, hcb, hod]
    simp [aRename, hbak]
  · intro hod
    simp only [aferoFileCreationClose, hcb, hod]
    simp [aRemove]

/-- The returned error of `Close` is the body's error. -/
theorem close_err_eq (env : CloseEnv) (f : CloseInput) (fs0 : AFiles) :
    (aferoFileCreationClose env f fs0).err = (closeBody env f).1 := rfl

/-- The indexer call of `Close` is the body's indexer call. -/
theorem close_indexed_eq (env : CloseEnv) (f : CloseInput) (fs0 : AFiles) :
    (aferoFileCreationClose env f fs0).indexed = (closeBody env f).2.2 := rfl

/-- Helper: when the declared hash is absent or equal to the digest and
the declared size is negative or equal to the count, the check stage
reaches the indexer with the adopted document. -/
theorem closeChecks_pass (hv : Nat) (w : Int) (od : Option FileDoc)
    (ie : Option Nat) (nd : FileDoc)
    (hmd5 : nd.md5 = none ∨ nd.md5 = some hv)
    (hsz : nd.byteSize < 0 ∨ nd.byteSize = w) :
    ∃ nd2 : FileDoc, nd2.md5 = some hv ∧ nd2.byteSize = w ∧
      closeChecks hv w od ie nd =
        (ie.map Err.backend, nd2,
          some (match od with
            | some o => IndexerCall.update o nd2
            | none => IndexerCall.create nd2)) := by
  rcases hmd5 with hm | hm
  · by_cases hneg : nd.byteSize < 0
    · refine ⟨{ nd with md5 := some hv, byteSize := w }, by simp, by simp, ?_⟩
      simp only [closeChecks, hm]
      cases od <;> simp [hneg]
    · have hw : nd.byteSize = w := hsz.resolve_left hneg
      refine ⟨{ nd with md5 := some hv }, by simp, by simp [hw], ?_⟩
      simp only [closeChecks, hm]
      cases od <;> simp [hneg, hw]
  · have hmn : ¬ nd.md5 = none := by simp [hm]
    by_cases hneg : nd.byteSize < 0
    · refine ⟨{ nd with byteSize := w }, by simp [hm], by simp, ?_⟩
      simp only [closeChecks]
      cases od <;> simp [hmn, hm, hneg]
    · have hw : nd.byteSize = w := hsz.resolve_left hneg
      have hnegw : ¬ w < 0 := hw ▸ hneg
      refine ⟨nd, hm, hw, ?_⟩
      simp only [closeChecks]
      cases od <;> simp [hmn, hm, hneg, hw, hnegw]

/-- Helper: `closeBody` on the all-checks-pass path. -/
theorem closeBody_checks_pass (env : CloseEnv) (f : CloseInput)
    (hc : env.closeErr = none) (hw : f.werr = none)
    (hmd5 : f.newdoc.md5 = none ∨ f.newdoc.md5 = some f.hashVal)
    (hsz : f.newdoc.byteSize < 0 ∨ f.newdoc.byteSize = f.w) :
    ∃ nd2 : FileDoc, nd2.md5 = some f.hashVal ∧ nd2.byteSize = f.w ∧
      closeBody env f =
        (env.indexerErr.map Err.backend, nd2,
          some (match f.olddoc with
            | some o => IndexerCall.update o nd2
            | none => IndexerCall.create nd2)) := by
  have h1 := metaDoc_md5 env.metaResult f.newdoc
  have h2 := metaDoc_byteSize env.metaResult f.newdoc
  have hnd5 : (metaDoc env.metaResult f.newdoc).md5 = none ∨
      (metaDoc env.metaResult f.newdoc).md5 = some f.hashVal := by
    rw [h1]; exact hmd5
  have hndsz : (metaDoc env.metaResult f.newdoc).byteSize < 0 ∨
      (metaDoc env.metaResult f.newdoc).byteSize = f.w := by
    rw [h2]; exact hsz
  obtain ⟨nd2, ha, hb, heq⟩ :=
    closeChecks_pass f.hashVal f.w f.olddoc env.indexerErr _ hnd5 hndsz
  refine ⟨nd2, ha, hb, ?_⟩
  unfold closeBody
  rw [hc, hw, heq]

/-- C1: for every write session, with the backend close succeeding and no
recorded write error, a declared hash that differs from the digest of
the written content makes `Close` fail with `ErrInvalidHash`, and a
declared (non-negative) byte size that differs from the written count —
with the hash check passing — makes it fail with
`ErrContentLengthMismatch`; in both cases no indexer call is made, the
backup of a prior revision is renamed back to the final path (so the
prior content is readable there unchanged), and with no prior revision
the partially written object is removed. -/
theorem close_integrity_mismatch_rolls_back (env : CloseEnv) (f : CloseInput)
    (fs0 : AFiles) (hc : env.closeErr = none) (hw : f.werr = none) :
    (∀ h, f.newdoc.md5 = some h → h ≠ f.hashVal →
      (aferoFileCreationClose env f fs0).err = some Err.invalidHash ∧
      (aferoFileCreationClose env f fs0).indexed = none ∧
      (∀ od p, f.olddoc = some od → fs0 f.bakpath = some p →
        (aferoFileCreationClose env f fs0).fs f.newpath = some p) ∧
      (f.olddoc = none → (aferoFileCreationClose env f fs0).fs f.newpath = none))
  ∧ ((f.newdoc.md5 = none ∨ f.newdoc.md5 = some f.hashVal) →
      0 ≤ f.newdoc.byteSize → f.newdoc.byteSize ≠ f.w →
      (aferoFileCreationClose env f fs0).err = some Err.contentLengthMismatch ∧
      (aferoFileCreationClose env f fs0).indexed = none ∧
      (∀ od p, f.olddoc = some od → fs0 f.bakpath = some p →
        (aferoFileCreationClose env f fs0).fs f.newpath = some p) ∧
      (f.olddoc = none → (aferoFileCreationClose env f fs0).fs f.newpath = none)) := by
  constructor
  · intro h hmd5 hne
    have hb := closeBody_md5_mismatch env f hc hw h hmd5 hne
    have hd := close_defer_rollback env f fs0 _ hb.1
    exact ⟨by simp [aferoFileCreationClose, hb.1], by simp [aferoFileCreationClose, hb.2],
      hd.1, hd.2⟩
  · intro hmd5 hnn hne
    have hb := closeBody_size_mismatch env f hc hw hmd5 hnn hne
    have hd := close_defer_rollback env f fs0 _ hb.1
    exact ⟨by simp [aferoFileCreationClose, hb.1], by simp [aferoFileCreationClose, hb.2],
      hd.1, hd.2⟩

/-- Witness for `close_integrity_mismatch_rolls_back`: a concrete session
declaring hash 5 while the written digest is 7, over a prior revision
whose backup holds content 9; `Close` fails with `ErrInvalidHash`, calls
no indexer, and the final path reads the prior content 9 again. -/
theorem close_integrity_mismatch_example :
    (aferoFileCreationClose ⟨none, none, none⟩
        ⟨3, 7, none, ⟨"n", "", some 5, 3, none, 0⟩,
          some ⟨"o", "1", some 5, 3, none, 0⟩, "/f", "/.o_1"⟩
        (fun p => if p = "/.o_1" then some 9 else if p = "/f" then some 42 else none)).err
      = some Err.invalidHash ∧
    (aferoFileCreationClose ⟨none, none, none⟩
        ⟨3, 7, none, ⟨"n", "", some 5, 3, none, 0⟩,
          some ⟨"o", "1", some 5, 3, none, 0⟩, "/f", "/.o_1"⟩
        (fun p => if p = "/.o_1" then some 9 else if p = "/f" then some 42 else none)).indexed
      = none ∧
    (aferoFileCreationClose ⟨none, none, none⟩
        ⟨3, 7, none, ⟨"n", "", some 5, 3, none, 0⟩,
          some ⟨"o", "1", some 5, 3, none, 0⟩, "/f", "/.o_1"⟩
        (fun p => if p = "/.o_1" then some 9 else if p = "/f" then some 42 else none)).fs "/f"
      = some 9 := by
  have h := close_integrity_mismatch_rolls_back ⟨none, none, none⟩
    ⟨3, 7, none, ⟨"n", "", some 5, 3, none, 0⟩,
      some ⟨"o", "1", some 5, 3, none, 0⟩, "/f", "/.o_1"⟩
    (fun p => if p = "/.o_1" then some 9 else if p = "/f" then some 42 else none)
    rfl rfl
  have h1 := h.1 5 rfl (by decide)
  exact ⟨h1.1, h1.2.1, h1.2.2.1 ⟨"o", "1", some 5, 3, none, 0⟩ 9 rfl rfl⟩

/-- C8 counterexample: a create-path session (no prior revision) in which
every check passes but `CreateFileDoc` fails with an indexer error. The
claim says the newly written content stays at the final path; in fact
the deferred cleanup removes it (`fs "/p"` turns from content 42 into
`none`), because the deferred handler rolls back on any non-nil error,
including an indexer error. -/
theorem close_indexer_failure_counterexample :
    (aferoFileCreationClose ⟨none, none, some 3⟩
        ⟨4, 7, none, ⟨"n", "", none, -1, none, 0⟩, none, "/p", ""⟩
        (fun q => if q = "/p" then some 42 else none)).err = some (Err.backend 3) ∧
    (aferoFileCreationClose ⟨none, none, some 3⟩
        ⟨4, 7, none, ⟨"n", "", none, -1, none, 0⟩, none, "/p", ""⟩
        (fun q => if q = "/p" then some 42 else none)).fs "/p" = none := by
  exact ⟨rfl, rfl⟩

/-- C8 (amended): when the content is fully written (backend close ok, no
write error, hash and size expectations met) and the indexer call fails,
`Close` reports the indexer error to the caller — but the deferred
cleanup still runs: with a prior revision the backup is renamed back
over the final path, and without one the newly written object is
removed; the backend is rolled back rather than left holding the new
content unindexed. -/
theorem close_indexer_failure_rolls_back (env : CloseEnv) (f : CloseInput)
    (fs0 : AFiles) (hc : env.closeErr = none) (hw : f.werr = none)
    (hmd5 : f.newdoc.md5 = none ∨ f.newdoc.md5 = some f.hashVal)
    (hsz : f.newdoc.byteSize < 0 ∨ f.newdoc.byteSize = f.w)
    (e : Nat) (hie : env.indexerErr = some e) :
    (aferoFileCreationClose env f fs0).err = some (Err.backend e) ∧
    (aferoFileCreationClose env f fs0).indexed.isSome = true ∧
    (∀ od p, f.olddoc = some od → fs0 f.bakpath = some p →
      (aferoFileCreationClose env f fs0).fs f.newpath = some p) ∧
    (f.olddoc = none → (aferoFileCreationClose env f fs0).fs f.newpath = none) := by
  obtain ⟨nd2, _, _, heq⟩ := closeBody_checks_pass env f hc hw hmd5 hsz
  have herr : (closeBody env f).1 = some (Err.backend e) := by
    rw [heq]; simp [hie]
  have hd := close_defer_rollback env f fs0 _ herr
  refine ⟨by rw [close_err_eq, herr], ?_, hd.1, hd.2⟩
  rw [close_indexed_eq, heq]
  cases f.olddoc <;> simp

/-- Witness for `close_indexer_failure_rolls_back`: an overwrite session
whose update call fails with indexer error 3; `Close` returns that error
and the final path reads the prior content 9 restored from the backup. -/
theorem close_indexer_failure_example :
    (aferoFileCreationClose ⟨none, none, some 3⟩
        ⟨4, 7, none, ⟨"n", "", some 7, 4, none, 0⟩,
          some ⟨"o", "1", some 7, 4, none, 0⟩, "/f", "/.o_1"⟩
        (fun q => if q = "/.o_1" then some 9 else if q = "/f" then some 42 else none)).err
      = some (Err.backend 3) ∧
    (aferoFileCreationClose ⟨none, none, some 3⟩
        ⟨4, 7, none, ⟨"n", "", some 7, 4, none, 0⟩,
          some ⟨"o", "1", some 7, 4, none, 0⟩, "/f", "/.o_1"⟩
        (fun q => if q = "/.o_1" then some 9 else if q = "/f" then some 42 else none)).fs "/f"
      = some 9 := by
  have h := close_indexer_failure_rolls_back ⟨none, none, some 3⟩
    ⟨4, 7, none, ⟨"n", "", some 7, 4, none, 0⟩,
      some ⟨"o", "1", some 7, 4, none, 0⟩, "/f", "/.o_1"⟩
    (fun q => if q = "/.o_1" then some 9 else if q = "/f" then some 42 else none)
    rfl rfl (Or.inr rfl) (Or.inr rfl) 3 rfl
  exact ⟨h.1, h.2.2.1 ⟨"o", "1", some 7, 4, none, 0⟩ 9 rfl rfl⟩

/-- C10: when the caller pre-declares no expectations — `MD5Sum` nil and
`ByteSize` negative — `Close` never fails with an integrity error; on
the reached-checks path (backend close ok, no write error) the computed
digest and the written count are adopted into the document handed to the
indexer, and the only possible failure is the indexer's. -/
theorem close_no_expectations_never_integrity_error (env : CloseEnv)
    (f : CloseInput) (fs0 : AFiles)
    (hm : f.newdoc.md5 = none) (hs : f.newdoc.byteSize < 0) :
    ((aferoFileCreationClose env f fs0).err ≠ some Err.invalidHash ∧
     (aferoFileCreationClose env f fs0).err ≠ some Err.contentLengthMismatch) ∧
    (env.closeErr = none → f.werr = none →
      (aferoFileCreationClose env f fs0).err = env.indexerErr.map Err.backend ∧
      ∃ call, (aferoFileCreationClose env f fs0).indexed = some call ∧
        call.doc.md5 = some f.hashVal ∧ call.doc.byteSize = f.w) := by
  constructor
  · rcases hce : env.closeErr with _ | c
    · rcases hwe : f.werr with _ | c
      · obtain ⟨nd2, _, _, heq⟩ := closeBody_checks_pass env f hce hwe
          (Or.inl hm) (Or.inl hs)
        have herr : (closeBody env f).1 = env.indexerErr.map Err.backend := by
          rw [heq]
        rw [close_err_eq, herr]
        rcases env.indexerErr with _ | k <;> simp
      · have herr : (closeBody env f).1 = some (Err.backend c) := by
          unfold closeBody; rw [hce, hwe]
        rw [close_err_eq, herr]
        simp
    · have herr : (closeBody env f).1 = some (Err.backend c) := by
        unfold closeBody; rw [hce]
      rw [close_err_eq, herr]
      simp
  · intro hc hw
    obtain ⟨nd2, ha, hb, heq⟩ := closeBody_checks_pass env f hc hw
      (Or.inl hm) (Or.inl hs)
    refine ⟨by rw [close_err_eq, heq], ?_⟩
    rw [close_indexed_eq, heq]
    rcases hod : f.olddoc with _ | od
    · exact ⟨.create nd2, rfl, ha, hb⟩
    · exact ⟨.update od nd2, rfl, ha, hb⟩

/-- Witness for `close_no_expectations_never_integrity_error`: a session
with no declared hash and size -1 writing 4 bytes of digest 7; `Close`
succeeds and hands the indexer a document carrying hash 7 and size 4. -/
theorem close_no_expectations_example :
    (aferoFileCreationClose ⟨none, none, none⟩
        ⟨4, 7, none, ⟨"n", "", none, -1, none, 0⟩, none, "/p", ""⟩
        (fun _ => none)).err = none ∧
    ∃ call, (aferoFileCreationClose ⟨none, none, none⟩
        ⟨4, 7, none, ⟨"n", "", none, -1, none, 0⟩, none, "/p", ""⟩
        (fun _ => none)).indexed = some call ∧
      call.doc.md5 = some 7 ∧ call.doc.byteSize = 4 := by
  have h := close_no_expectations_never_integrity_error ⟨none, none, none⟩
    ⟨4, 7, none, ⟨"n", "", none, -1, none, 0⟩, none, "/p", ""⟩
    (fun _ => none) rfl (by decide)
  exact ⟨(h.2 rfl rfl).1, (h.2 rfl rfl).2⟩

/-- C2: when `CreateFile` overwrites an existing document and the backup
rename fails because the source object no longer exists (the backend
rename reports not-found — a concurrent writer already moved it),
`CreateFile` returns `ErrConflict`; any other failure of the backup
rename is returned as-is. -/
theorem createFile_backup_rename_conflict (env : CreateFileEnv)
    (newdoc od : FileDoc) (newpath : String) :
    (safeRenameFile env.stat env.ren newpath ("/." ++ od.id ++ "_" ++ od.rev)
        = some Err.notExist →
      CreateFile env newdoc (some od) newpath = .error Err.conflict)
  ∧ (∀ e, goIsNotExist e = false →
      safeRenameFile env.stat env.ren newpath ("/." ++ od.id ++ "_" ++ od.rev)
        = some e →
      CreateFile env newdoc (some od) newpath = .error e) := by
  constructor
  · intro h
    simp [CreateFile, h, goIsNotExist]
  · intro e he h
    simp [CreateFile, h, he]

/-- Witness for `createFile_backup_rename_conflict`: the backend rename
of `/f` to the backup path loses the race (not-found); `CreateFile`
returns `ErrConflict`, not the raw not-found error. -/
theorem createFile_conflict_example :
    safeRenameFile (fun _ => some Err.notExist) (fun _ _ => some Err.notExist)
      "/f" "/.o_1" = some Err.notExist ∧
    CreateFile ⟨fun _ => some Err.notExist, fun _ _ => some Err.notExist,
        fun _ => none⟩
      ⟨"n", "", none, -1, none, 0⟩ (some ⟨"o", "1", none, -1, none, 0⟩) "/f"
      = .error Err.conflict := by
  refine ⟨by decide, ?_⟩
  exact (createFile_backup_rename_conflict
    ⟨fun _ => some Err.notExist, fun _ _ => some Err.notExist, fun _ => none⟩
    ⟨"n", "", none, -1, none, 0⟩ ⟨"o", "1", none, -1, none, 0⟩ "/f").1 (by decide)

/-- C3 (code-bug exhibit): `swiftCommit` on a staging area holding
`tmp-T/a` and `tmp-T/b`, where the move of `tmp-T/b` fails and the
subsequent `Abort` succeeds. `Commit` returns the result of `f.Abort()`,
which is `nil`: the move failure is swallowed and the caller sees
success, while the already-moved object `app/1.0.0/a` remains under the
final namespace and no completion marker exists at `app/1.0.0`. -/
theorem swiftCommit_move_failure_swallows_error :
    (swiftCommit
        { moveErr := fun s => if s = "tmp-T/b" then some (Err.backend 1) else none }
        ⟨["tmp-T/a", "tmp-T/b"], true⟩ ⟨"app/1.0.0", "tmp-T/", true⟩).1 = none ∧
    (swiftCommit
        { moveErr := fun s => if s = "tmp-T/b" then some (Err.backend 1) else none }
        ⟨["tmp-T/a", "tmp-T/b"], true⟩ ⟨"app/1.0.0", "tmp-T/", true⟩).2.objs
      = ["app/1.0.0/a"] := by
  decide

/-- C4: for both installer variants, `Start` on an already-materialized
artifact returns "exists" with no error and no mutation — the store is
returned unchanged, no staging namespace is allocated and the `started`
flag is untouched — and a second `Start` on the resulting state again
returns "exists". -/
theorem start_on_existing_artifact_no_mutation
    (senv : SwiftEnv) (sst : SwiftState) (sc : SwiftCopier)
    (aenv : AfEnv) (ast : AfState) (ac : AfCopier) (slug version : String) :
    (sst.objs.contains (goPathJoinList [slug, version]) = true →
      (swiftStart senv sst sc slug version).found = true ∧
      (swiftStart senv sst sc slug version).err = none ∧
      (swiftStart senv sst sc slug version).state = sst ∧
      (swiftStart senv sst sc slug version).copier.tmpObj = sc.tmpObj ∧
      (swiftStart senv sst sc slug version).copier.started = sc.started ∧
      (swiftStart senv (swiftStart senv sst sc slug version).state
        (swiftStart senv sst sc slug version).copier slug version).found = true)
  ∧ (ast.dirs.contains (goPathJoinList ["/", slug, version]) = true →
      (aferoStart aenv ast ac slug version).found = true ∧
      (aferoStart aenv ast ac slug version).err = none ∧
      (aferoStart aenv ast ac slug version).state = ast ∧
      (aferoStart aenv ast ac slug version).copier.tmpDir = ac.tmpDir ∧
      (aferoStart aenv ast ac slug version).copier.started = ac.started ∧
      (aferoStart aenv (aferoStart aenv ast ac slug version).state
        (aferoStart aenv ast ac slug version).copier slug version).found = true) := by
  constructor
  · intro h
    have hm : goPathJoinList [slug, version] ∈ sst.objs := by simpa using h
    have hs : swiftStart senv sst sc slug version =
        { found := true, err := none,
          copier := { sc with appObj := goPathJoinList [slug, version] },
          state := sst } := by
      simp [swiftStart, hm]
    rw [hs]
    refine ⟨rfl, rfl, rfl, rfl, rfl, ?_⟩
    simp [swiftStart, hm]
  · intro h
    have hm : goPathJoinList ["/", slug, version] ∈ ast.dirs := by simpa using h
    have hs : aferoStart aenv ast ac slug version =
        { found := true, err := none,
          copier := { ac with appDir := goPathJoinList ["/", slug, version] },
          state := ast } := by
      simp [aferoStart, hm]
    rw [hs]
    refine ⟨rfl, rfl, rfl, rfl, rfl, ?_⟩
    simp [aferoStart, hm]

/-- Witness for `start_on_existing_artifact_no_mutation`: a swift store
holding the marker `app/1.0.0` and an afero store holding the directory
`/app/1.0.0`; both `Start("app", "1.0.0")` calls report "exists". -/
theorem start_on_existing_artifact_example :
    (["app/1.0.0"].contains (goPathJoinList ["app", "1.0.0"]) = true ∧
      ["/", "/app", "/app/1.0.0"].contains (goPathJoinList ["/", "app", "1.0.0"]) = true) ∧
    (swiftStart {} ⟨["app/1.0.0"], true⟩ {} "app" "1.0.0").found = true ∧
    (swiftStart {} ⟨["app/1.0.0"], true⟩ {} "app" "1.0.0").state = ⟨["app/1.0.0"], true⟩ ∧
    (aferoStart {} ⟨["/", "/app", "/app/1.0.0"], []⟩ {} "app" "1.0.0").found = true ∧
    (aferoStart {} ⟨["/", "/app", "/app/1.0.0"], []⟩ {} "app" "1.0.0").state
      = ⟨["/", "/app", "/app/1.0.0"], []⟩ := by
  have h := start_on_existing_artifact_no_mutation {} ⟨["app/1.0.0"], true⟩ {}
    {} ⟨["/", "/app", "/app/1.0.0"], []⟩ {} "app" "1.0.0"
  have h1 := h.1 (by decide)
  have h2 := h.2 (by decide)
  exact ⟨⟨by decide, by decide⟩, h1.1, h1.2.2.1, h2.1, h2.2.2.1⟩

/-- C9 counterexample: the object-store `Start` can fail — container
probe error other than not-found — and still set the `started` flag:
`Start` returns `(false, backend 7)`, so it "did not succeed with
exists = false", yet the subsequent `Copy` does not panic, contradicting
the claim that any `Copy` after a non-successful `Start` panics. -/
theorem swiftStart_error_sets_started_counterexample :
    (swiftStart { containerProbeErr := some (Err.backend 7) } ⟨[], true⟩ {}
        "app" "1.0.0").err = some (Err.backend 7) ∧
    (swiftStart { containerProbeErr := some (Err.backend 7) } ⟨[], true⟩ {}
        "app" "1.0.0").found = false ∧
    (swiftStart { containerProbeErr := some (Err.backend 7) } ⟨[], true⟩ {}
        "app" "1.0.0").copier.started = true ∧
    swiftCopy {} ⟨[], true⟩
        (swiftStart { containerProbeErr := some (Err.backend 7) } ⟨[], true⟩ {}
          "app" "1.0.0").copier "f" ≠ .panicked := by
  decide

/-- C9 (amended): `Copy` panics exactly when the `started` flag is not
set, for both variants; the afero `Start` sets the flag exactly when it
returns `(exists = false, err = nil)`, while the swift `Start` can set
the flag on one error path (container probe failing with an error other
than not-found), so there a `Copy` after a failed `Start` need not
panic. -/
theorem copy_panics_iff_not_started
    (cenv : CopyEnv) (sst : SwiftState) (sc : SwiftCopier)
    (aenv : AfEnv) (ast : AfState) (ac : AfCopier)
    (name slug version : String) :
    (swiftCopy cenv sst sc name = .panicked ↔ sc.started = false)
  ∧ (aferoCopy cenv aenv ast ac name = .panicked ↔ ac.started = false)
  ∧ (ac.started = false →
      ((aferoStart aenv ast ac slug version).copier.started = true ↔
        (aferoStart aenv ast ac slug version).found = false ∧
        (aferoStart aenv ast ac slug version).err = none)) := by
  refine ⟨?_, ?_, ?_⟩
  · by_cases hs : sc.started
    · rcases hce : cenv.createErr with _ | e <;>
        rcases hd : copyDeferredErr cenv with _ | e2 <;>
        simp [swiftCopy, hs, hd, hce]
    · simp [swiftCopy, hs]
  · by_cases hs : ac.started
    · rcases hmk : aenv.mkdirErr (goPathDir (goPathJoinList [ac.tmpDir, name] ++ ".gz"))
          with _ | e <;>
        rcases hce : cenv.createErr with _ | e1 <;>
        rcases hd : copyDeferredErr cenv with _ | e2 <;>
        simp [aferoCopy, hs, hmk, hce, hd]
    · simp [aferoCopy, hs]
  · intro hs
    by_cases hex : ast.dirs.contains (goPathJoinList ["/", slug, version])
    · have hm : goPathJoinList ["/", slug, version] ∈ ast.dirs := by simpa using hex
      simp [aferoStart, hm, hs]
    · have hm : goPathJoinList ["/", slug, version] ∉ ast.dirs := by simpa using hex
      rcases he : aenv.dirExistsErr with _ | e
      · rcases hmk : aenv.mkdirErr (goPathDir (goPathJoinList ["/", slug, version]))
            with _ | e1
        · rcases ht : aenv.tmpDirErr with _ | e2 <;>
            simp [aferoStart, hm, hs, he, hmk, ht]
        · simp [aferoStart, hm, hs, he, hmk]
      · simp [aferoStart, hm, hs, he]

/-- Witness for `copy_panics_iff_not_started`: an unstarted swift copier
panics on `Copy`; a started afero copier does not. -/
theorem copy_panics_example :
    swiftCopy {} ⟨[], true⟩ ⟨"a/1", "tmp-T/", false⟩ "f"
      = CopyResult.panicked ∧
    aferoCopy {} {} ⟨["/", "/a", "/a/tmpR"], []⟩ ⟨"/a/1", "/a/tmpR", true⟩ "f"
      ≠ CopyResult.panicked := by
  constructor
  · exact (copy_panics_iff_not_started {} ⟨[], true⟩ ⟨"a/1", "tmp-T/", false⟩
      {} ⟨["/", "/a", "/a/tmpR"], []⟩ ⟨"/a/1", "/a/tmpR", true⟩
      "f" "a" "1").1.mpr rfl
  · intro hp
    have := (copy_panics_iff_not_started {} ⟨[], true⟩ ⟨"a/1", "tmp-T/", false⟩
      {} ⟨["/", "/a", "/a/tmpR"], []⟩ ⟨"/a/1", "/a/tmpR", true⟩
      "f" "a" "1").2.1.mp hp
    simp at this

/-- C5 counterexample: the afero `Commit` is nothing but a directory
rename and writes no marker: committing a staged tree succeeds, the
final path `/app/1.0.0` becomes a directory, and no (zero-length) file
exists at that top-level final path, while the claim requires a
zero-length completion marker file there for both variants. -/
theorem aferoCommit_no_marker_file_counterexample :
    (aferoCommit {} ⟨["/", "/app", "/app/tmpR"], [("/app/tmpR/x.gz", 5)]⟩
        ⟨"/app/1.0.0", "/app/tmpR", true⟩).1 = none ∧
    ((aferoCommit {} ⟨["/", "/app", "/app/tmpR"], [("/app/tmpR/x.gz", 5)]⟩
        ⟨"/app/1.0.0", "/app/tmpR", true⟩).2.files.filter
      (fun f => f.1 = "/app/1.0.0")) = [] ∧
    (aferoCommit {} ⟨["/", "/app", "/app/tmpR"], [("/app/tmpR/x.gz", 5)]⟩
        ⟨"/app/1.0.0", "/app/tmpR", true⟩).2.files
      = [("/app/1.0.0/x.gz", 5)] ∧
    (aferoCommit {} ⟨["/", "/app", "/app/tmpR"], [("/app/tmpR/x.gz", 5)]⟩
        ⟨"/app/1.0.0", "/app/tmpR", true⟩).2.dirs.contains "/app/1.0.0" = true := by
  decide

/-- Helper: the swift commit move loop, when every move succeeds, ends by
creating the completion marker (success implies the marker object is in
the final store). -/
theorem swiftCommitLoop_marker (senv : SwiftEnv) (sc : SwiftCopier)
    (hmv : ∀ s, senv.moveErr s = none) :
    ∀ (names : List String) (st : SwiftState),
      (swiftCommitLoop senv sc names st).1 = none →
      sc.appObj ∈ (swiftCommitLoop senv sc names st).2.objs := by
  intro names
  induction names with
  | nil =>
    intro st h
    rcases hc : senv.markerCreateErr with _ | e
    · rcases hcl : senv.markerCloseErr with _ | e2
      · simp [swiftCommitLoop, hc, hcl]
      · rw [swiftCommitLoop] at h
        rw [hc, hcl] at h
        simp at h
    · rw [swiftCommitLoop] at h
      rw [hc] at h
      simp at h
  | cons src rest ih =>
    intro st h
    rw [swiftCommitLoop, hmv src] at h ⊢
    exact ih _ h

/-- C5 (amended): the two installer variants signal completion
differently. Swift: when every staged move succeeds, a successful
`Commit` ends by creating the zero-length marker object at the top-level
final path `appObj`, and `Start` reports "exists" exactly when that
object is present. Afero: `Commit` atomically renames the staging
directory onto `appDir` and writes no marker file (the files afterwards
are exactly the staged files relocated), and `Start` reports "exists"
exactly when the `appDir` directory itself exists. -/
theorem commit_marker_amended (senv : SwiftEnv) (sst : SwiftState)
    (sc : SwiftCopier) (aenv : AfEnv) (ast : AfState) (ac : AfCopier)
    (slug version : String) :
    ((∀ s, senv.moveErr s = none) → (swiftCommit senv sst sc).1 = none →
      sc.appObj ∈ (swiftCommit senv sst sc).2.objs)
  ∧ ((swiftStart senv sst sc slug version).found = true ↔
      goPathJoinList [slug, version] ∈ sst.objs)
  ∧ ((aferoCommit aenv ast ac).1 = none →
      ac.appDir ∈ (aferoCommit aenv ast ac).2.dirs ∧
      (aferoCommit aenv ast ac).2.files =
        ast.files.map (fun f => (replacePrefDir f.1 ac.tmpDir ac.appDir, f.2)))
  ∧ ((aferoStart aenv ast ac slug version).found = true ↔
      goPathJoinList ["/", slug, version] ∈ ast.dirs) := by
  refine ⟨?_, ?_, ?_, ?_⟩
  · intro hmv h
    rcases hl : senv.listErr with _ | e
    · rw [swiftCommit, hl] at h ⊢
      exact swiftCommitLoop_marker senv sc hmv _ _ h
    · rw [swiftCommit, hl] at h
      simp at h
  · by_cases hm : goPathJoinList [slug, version] ∈ sst.objs
    · simp [swiftStart, hm]
    · rcases ho : senv.objectProbeErr with _ | e
      · rcases hp : (if sst.containerExists = true then senv.containerProbeErr
            else some Err.containerNotFound) with _ | e2
        · simp [swiftStart, hm, ho, hp]
        · rcases e2 <;> rcases hc : senv.containerCreateErr with _ | e3 <;>
            simp [swiftStart, hm, ho, hp, hc]
      · simp [swiftStart, hm, ho]
  · intro h
    rcases hr : aenv.renameErr with _ | e
    · by_cases hex : ac.appDir ∈ ast.dirs
      · have hc : (aferoCommit aenv ast ac).1 = some Err.errExist := by
          simp [aferoCommit, hr, hex]
        simp [hc] at h
      · by_cases htd : ac.tmpDir ∈ ast.dirs
        · have hc : aferoCommit aenv ast ac =
              (none, afRenameTree ast ac.tmpDir ac.appDir) := by
            simp [aferoCommit, hr, hex, htd]
          rw [hc]
          refine ⟨?_, rfl⟩
          have hrep : replacePrefDir ac.tmpDir ac.tmpDir ac.appDir = ac.appDir := by
            simp [replacePrefDir]
          exact List.mem_map.mpr ⟨ac.tmpDir, htd, hrep⟩
        · have hc : (aferoCommit aenv ast ac).1 = some Err.notExist := by
            simp [aferoCommit, hr, hex, htd]
          simp [hc] at h
    · have hc : (aferoCommit aenv ast ac).1 = some e := by
        simp [aferoCommit, hr]
      simp [hc] at h
  · by_cases hm : goPathJoinList ["/", slug, version] ∈ ast.dirs
    · simp [aferoStart, hm]
    · rcases he : aenv.dirExistsErr with _ | e
      · rcases hmk : aenv.mkdirErr (goPathDir (goPathJoinList ["/", slug, version]))
            with _ | e1
        · rcases ht : aenv.tmpDirErr with _ | e2 <;>
            simp [aferoStart, hm, he, hmk, ht]
        · simp [aferoStart, hm, he, hmk]
      · simp [aferoStart, hm, he]

/-- Witness for `commit_marker_amended`: a swift commit of one staged
object ends with the marker `app/1.0.0` present, and an afero commit of
one staged file moves it below `/app/1.0.0` with no marker file. -/
theorem commit_marker_example :
    (swiftCommit {} ⟨["tmp-T/a"], true⟩ ⟨"app/1.0.0", "tmp-T/", true⟩).1 = none ∧
    "app/1.0.0" ∈ (swiftCommit {} ⟨["tmp-T/a"], true⟩
      ⟨"app/1.0.0", "tmp-T/", true⟩).2.objs ∧
    "/app/1.0.0" ∈ (aferoCommit {} ⟨["/", "/app", "/app/tmpR"],
      [("/app/tmpR/x.gz", 5)]⟩ ⟨"/app/1.0.0", "/app/tmpR", true⟩).2.dirs ∧
    (aferoCommit {} ⟨["/", "/app", "/app/tmpR"], [("/app/tmpR/x.gz", 5)]⟩
        ⟨"/app/1.0.0", "/app/tmpR", true⟩).2.files =
      [("/app/tmpR/x.gz", 5)].map
        (fun f => (replacePrefDir f.1 "/app/tmpR" "/app/1.0.0", f.2)) := by
  have h := commit_marker_amended {} ⟨["tmp-T/a"], true⟩ ⟨"app/1.0.0", "tmp-T/", true⟩
    {} ⟨["/", "/app", "/app/tmpR"], [("/app/tmpR/x.gz", 5)]⟩
    ⟨"/app/1.0.0", "/app/tmpR", true⟩ "app" "1.0.0"
  have h1 := h.1 (fun _ => rfl) (by decide)
  have h3 := h.2.2.1 (by decide)
  exact ⟨by decide, h1, h3.1, h3.2⟩

/-- Helper: the destroy loop on a successful prefix followed by a
failing child returns that child's error with the combined trace and
never reaches the remaining siblings. -/
theorem DestroyDirContent_halts (env : DestroyEnv) :
    ∀ (pre : List Node) (c : Node) (post : List Node) (tp tc : List Act) (e : Err),
      DestroyDirContent env pre = (tp, none) →
      destroyChild env c = (tc, some e) →
      DestroyDirContent env (pre ++ c :: post) = (tp ++ tc, some e) := by
  intro pre
  induction pre with
  | nil =>
    intro c post tp tc e hp hc
    rw [DestroyDirContent] at hp
    have htp : tp = [] := (Prod.mk.injEq _ _ _ _ ▸ hp).1.symm
    subst htp
    rw [List.nil_append, List.nil_append]
    rw [DestroyDirContent, hc]
  | cons n rest ih =>
    intro c post tp tc e hp hc
    rcases hn : destroyChild env n with ⟨t, r⟩
    rcases r with _ | e1
    · rcases hrest : DestroyDirContent env rest with ⟨t2, r2⟩
      rw [DestroyDirContent, hn, hrest] at hp
      have ht : t ++ t2 = tp := (Prod.mk.injEq _ _ _ _ ▸ hp).1
      have hr2 : r2 = none := (Prod.mk.injEq _ _ _ _ ▸ hp).2
      subst hr2
      rw [List.cons_append, DestroyDirContent, hn,
        ih c post t2 tc e hrest hc]
      rw [← ht, List.append_assoc]
    · rw [DestroyDirContent, hn] at hp
      exact absurd (Prod.mk.injEq _ _ _ _ ▸ hp).2 (by simp)

/-- C7: recursive destroy is post-order and fail-fast: a directory's own
backend removal and document deletion happen only after every child in
the iterator's sequence has been fully destroyed (and in that order); a
child file is destroyed backend-first then index; and the first failing
child ends the traversal immediately — its error is returned and no
action of any remaining sibling, nor of the directory itself, appears. -/
theorem destroy_postorder_fail_fast (env : DestroyEnv) :
    (∀ (id : String) (cs : List Node) (t : List Act),
      DestroyDirContent env cs = (t, none) →
      env.dirPathErr id = none → env.dirRemoveAllErr id = none →
      env.dirDocErr id = none →
      DestroyDirAndContent env id cs =
        (t ++ [.dirRemoved id, .dirDocDeleted id], none))
  ∧ (∀ id : String, env.filePathErr id = none → env.fileRemoveErr id = none →
      env.fileDocErr id = none →
      DestroyFile env id = ([.fileRemoved id, .fileDocDeleted id], none))
  ∧ (∀ (id : String) (pre : List Node) (c : Node) (post : List Node)
      (tp tc : List Act) (e : Err),
      DestroyDirContent env pre = (tp, none) →
      destroyChild env c = (tc, some e) →
      DestroyDirAndContent env id (pre ++ c :: post) = (tp ++ tc, some e)) := by
  refine ⟨?_, ?_, ?_⟩
  · intro id cs t h h1 h2 h3
    rw [DestroyDirAndContent, h, h1, h2, h3]
  · intro id h1 h2 h3
    rw [DestroyFile, h1, h2, h3]
  · intro id pre c post tp tc e hp hc
    rw [DestroyDirAndContent, DestroyDirContent_halts env pre c post tp tc e hp hc]

/-- Witness for `destroy_postorder_fail_fast`: destroying a directory
`d` whose iterator yields files `a`, `bad`, `zz` where the backend
removal of `bad` fails: `a` is fully destroyed, the error of `bad` is
returned, and no action for `zz` or for `d` itself is performed. -/
theorem destroy_postorder_example :
    DestroyDirContent
      ⟨fun _ => none,
        fun i => if i = "bad" then some (Err.backend 1) else none,
        fun _ => none, fun _ => none, fun _ => none, fun _ => none⟩
      [Node.file "a"] = ([.fileRemoved "a", .fileDocDeleted "a"], none) ∧
    destroyChild
      ⟨fun _ => none,
        fun i => if i = "bad" then some (Err.backend 1) else none,
        fun _ => none, fun _ => none, fun _ => none, fun _ => none⟩
      (Node.file "bad") = ([], some (Err.backend 1)) ∧
    DestroyDirAndContent
      ⟨fun _ => none,
        fun i => if i = "bad" then some (Err.backend 1) else none,
        fun _ => none, fun _ => none, fun _ => none, fun _ => none⟩
      "d" [Node.file "a", Node.file "bad", Node.file "zz"] =
      ([.fileRemoved "a", .fileDocDeleted "a"], some (Err.backend 1)) := by
  refine ⟨by simp [DestroyDirContent, destroyChild, DestroyFile],
    by simp [destroyChild, DestroyFile], ?_⟩
  have h := (destroy_postorder_fail_fast
    ⟨fun _ => none,
      fun i => if i = "bad" then some (Err.backend 1) else none,
      fun _ => none, fun _ => none, fun _ => none, fun _ => none⟩).2.2
    "d" [Node.file "a"] (Node.file "bad") [Node.file "zz"]
    [.fileRemoved "a", .fileDocDeleted "a"] [] (Err.backend 1)
    (by simp [DestroyDirContent, destroyChild, DestroyFile])
    (by simp [destroyChild, DestroyFile])
  simpa using h

/-! ### Path normal-form lemmas for the move-validation claim -/

/-- A flushed splitter accumulator is a good component. -/
theorem mk_rev_good (acc : List Char) (ha : acc ≠ [])
    (hacc : ∀ ch ∈ acc, ch ≠ '/') : goodComp (String.mk acc.reverse) := by
  constructor
  · intro h
    have h2 : acc.reverse = ([] : List Char) := congrArg String.toList h
    rw [List.reverse_eq_nil_iff] at h2
    exact ha h2
  · intro h
    have h2 : '/' ∈ acc.reverse := h
    rw [List.mem_reverse] at h2
    exact hacc '/' h2 rfl

/-- Every component produced by the splitter is good. -/
theorem compsAux_good : ∀ (l acc : List Char), (∀ ch ∈ acc, ch ≠ '/') →
    ∀ c ∈ compsAux l acc, goodComp c := by
  intro l
  induction l with
  | nil =>
    intro acc hacc c hc
    rw [compsAux] at hc
    by_cases ha : acc = []
    · simp [ha] at hc
    · simp only [ha, if_false] at hc
      rw [List.mem_singleton] at hc
      subst hc
      exact mk_rev_good acc ha hacc
  | cons ch r ih =>
    intro acc hacc c hc
    rw [compsAux] at hc
    by_cases hch : ch = '/'
    · simp only [hch, if_true] at hc
      by_cases ha : acc = []
      · rw [if_pos ha] at hc
        exact ih [] (by simp) c hc
      · rw [if_neg ha, List.mem_cons] at hc
        rcases hc with hc | hc
        · subst hc; exact mk_rev_good acc ha hacc
        · exact ih [] (by simp) c hc
    · simp only [hch, if_false] at hc
      refine ih (ch :: acc) ?_ c hc
      intro x hx
      rcases List.mem_cons.mp hx with hx | hx
      · subst hx; exact hch
      · exact hacc x hx

/-- Case equation of `cleanFold` on the empty component list. -/
theorem cleanFold_nil (rooted : Bool) (out : List String) :
    cleanFold rooted out [] = out := by
  rw [cleanFold.eq_def]

/-- Case equation of `cleanFold` on a component. -/
theorem cleanFold_cons (rooted : Bool) (out : List String) (a : String)
    (t : List String) :
    cleanFold rooted out (a :: t) =
      (if a = "." then cleanFold rooted out t
       else if a = ".." then
         (match out with
          | [] => if rooted then cleanFold rooted [] t else cleanFold rooted [".."] t
          | b :: bs =>
            if b = ".." then cleanFold rooted (".." :: b :: bs) t
            else cleanFold rooted bs t)
       else cleanFold rooted (a :: out) t) := by
  rw [cleanFold.eq_def]

/-- Every component kept by the `..`-elimination pass is good. -/
theorem cleanFold_good : ∀ (rest out : List String) (rooted : Bool),
    (∀ c ∈ out, goodComp c) → (∀ c ∈ rest, goodComp c) →
    ∀ c ∈ cleanFold rooted out rest, goodComp c := by
  intro rest
  induction rest with
  | nil =>
    intro out rooted hout _ c hc
    rw [cleanFold_nil] at hc
    exact hout c hc
  | cons a t ih =>
    intro out rooted hout hrest c hc
    have ht : ∀ x ∈ t, goodComp x := fun x hx => hrest x (List.mem_cons_of_mem _ hx)
    rw [cleanFold_cons] at hc
    by_cases h1 : a = "."
    · simp only [h1, if_true] at hc
      exact ih out rooted hout ht c hc
    · simp only [h1, if_false] at hc
      by_cases h2 : a = ".."
      · simp only [h2, if_true] at hc
        rcases hout2 : out with _ | ⟨b, bs⟩
        · rw [hout2] at hc
          cases rooted
          · simp only [Bool.false_eq_true, if_false] at hc
            refine ih [".."] false ?_ ht c hc
            intro x hx
            rw [List.mem_singleton] at hx
            subst hx
            exact ⟨by decide, by decide⟩
          · simp only [if_true] at hc
            exact ih [] true (by simp) ht c hc
        · rw [hout2] at hc
          have hb : goodComp b := hout b (hout2 ▸ List.mem_cons_self _ _)
          have hbs : ∀ x ∈ bs, goodComp x :=
            fun x hx => hout x (hout2 ▸ List.mem_cons_of_mem _ hx)
          by_cases h3 : b = ".."
          · simp only [h3, if_true] at hc
            refine ih (".." :: ".." :: bs) rooted ?_ ht c hc
            intro x hx
            rcases List.mem_cons.mp hx with hx | hx
            · subst hx; exact ⟨by decide, by decide⟩
            · rcases List.mem_cons.mp hx with hx | hx
              · subst hx; exact ⟨by decide, by decide⟩
              · exact hbs x hx
          · simp only [h3, if_false] at hc
            exact ih bs rooted hbs ht c hc
      · simp only [h2, if_false] at hc
        refine ih (a :: out) rooted ?_ ht c hc
        intro x hx
        rcases List.mem_cons.mp hx with hx | hx
        · exact hrest x (by rw [hx]; exact List.mem_cons_self _ _)
        · exact hout x hx

/-- The splitter on a slash-free suffix yields at most the one flushed
component. -/
theorem compsAux_noslash : ∀ (cs acc : List Char), (∀ c ∈ cs, c ≠ '/') →
    compsAux cs acc =
      (if acc.reverse ++ cs = [] then [] else [String.mk (acc.reverse ++ cs)]) := by
  intro cs
  induction cs with
  | nil =>
    intro acc _
    rw [compsAux]
    by_cases ha : acc = []
    · simp [ha]
    · have h2 : acc.reverse ++ ([] : List Char) ≠ [] := by simp [ha]
      rw [if_neg ha, if_neg h2, List.append_nil]
  | cons c r ih =>
    intro acc hcs
    have hc : c ≠ '/' := hcs c (List.mem_cons_self _ _)
    have hr : ∀ x ∈ r, x ≠ '/' := fun x hx => hcs x (List.mem_cons_of_mem _ hx)
    rw [compsAux]
    simp only [hc, if_false]
    rw [ih (c :: acc) hr]
    have he : (c :: acc).reverse ++ r = acc.reverse ++ (c :: r) := by
      rw [List.reverse_cons, List.append_assoc]
      rfl
    rw [he]

/-- The splitter distributes over a slash. -/
theorem compsAux_split : ∀ (xs ys acc : List Char),
    compsAux (xs ++ '/' :: ys) acc = compsAux xs acc ++ compsAux ys [] := by
  intro xs
  induction xs with
  | nil =>
    intro ys acc
    by_cases ha : acc = []
    · subst ha; simp [compsAux]
    · simp [compsAux, ha]
  | cons c r ih =>
    intro ys acc
    by_cases hc : c = '/'
    · subst hc
      by_cases ha : acc = []
      · subst ha; simp [compsAux, ih]
      · simp [compsAux, ha, ih]
    · simp [compsAux, hc, ih]

/-- `toList` distributes over string append. -/
theorem toList_append (a b : String) :
    (a ++ b).toList = a.toList ++ b.toList := String.data_append a b

/-- String append is associative. -/
theorem strAppend_assoc (a b c : String) : (a ++ b) ++ c = a ++ (b ++ c) := by
  apply String.ext
  simp [String.data_append]

/-- Case equation of `joinComps` on two or more components. -/
theorem joinComps_cons_cons (a b : String) (bs : List String) :
    joinComps (a :: b :: bs) = a ++ "/" ++ joinComps (b :: bs) := by
  rw [joinComps]
  intro h
  exact absurd h (by simp)

/-- `joinComps` on two nonempty lists inserts exactly one slash. -/
theorem joinComps_append : ∀ (l1 l2 : List String), l1 ≠ [] → l2 ≠ [] →
    joinComps (l1 ++ l2) = joinComps l1 ++ "/" ++ joinComps l2 := by
  intro l1
  induction l1 with
  | nil => intro l2 h _; exact absurd rfl h
  | cons a t ih =>
    intro l2 _ h2
    rcases t with _ | ⟨b, bs⟩
    · rcases l2 with _ | ⟨c, cs⟩
      · exact absurd rfl h2
      · rfl
    · rw [List.cons_append, show ((b :: bs) ++ l2) = b :: (bs ++ l2) from rfl]
      rw [joinComps_cons_cons, show (b :: (bs ++ l2)) = (b :: bs) ++ l2 from rfl]
      rw [ih l2 (by simp) h2, joinComps_cons_cons]
      simp [strAppend_assoc]

/-- The splitter inverts `joinComps` on good components. -/
theorem compsAux_join : ∀ l : List String, (∀ c ∈ l, goodComp c) →
    compsAux (joinComps l).toList [] = l := by
  intro l
  induction l with
  | nil => intro _; rfl
  | cons a t ih =>
    intro hg
    have ha : goodComp a := hg a (List.mem_cons_self _ _)
    have ht : ∀ c ∈ t, goodComp c := fun c hc => hg c (List.mem_cons_of_mem _ hc)
    have hnos : ∀ c ∈ a.toList, c ≠ '/' := by
      intro c hc he
      subst he
      exact ha.2 hc
    have hne : a.toList ≠ [] := fun h => ha.1 (String.ext h)
    rcases t with _ | ⟨b, bs⟩
    · rw [show joinComps [a] = a from rfl, compsAux_noslash a.toList [] hnos]
      simp only [List.reverse_nil, List.nil_append]
      rw [if_neg hne]
      rfl
    · rw [joinComps_cons_cons, toList_append, toList_append,
        show ("/" : String).toList = ['/'] from rfl,
        List.append_assoc, List.singleton_append,
        compsAux_split, ih ht, compsAux_noslash a.toList [] hnos]
      simp only [List.reverse_nil, List.nil_append]
      rw [if_neg hne]
      rfl

/-- The components of a rooted join of good components. -/
theorem pathComps_root_join (l : List String) (hg : ∀ c ∈ l, goodComp c) :
    pathComps ("/" ++ joinComps l) = l := by
  rw [pathComps, show ("/" ++ joinComps l).toList
    = '/' :: (joinComps l).toList from toList_append _ _]
  rw [show compsAux ('/' :: (joinComps l).toList) []
    = compsAux (joinComps l).toList [] from by rw [compsAux]; simp]
  exact compsAux_join l hg

/-- The head character of a join starting with a nonempty component. -/
theorem joinComps_head (a : String) (t : List String) (ha : a ≠ "") :
    (joinComps (a :: t)).toList.head? = a.toList.head? := by
  rcases t with _ | ⟨b, bs⟩
  · rfl
  · rw [joinComps_cons_cons, toList_append, toList_append]
    rcases hl : a.toList with _ | ⟨c, cs⟩
    · exact absurd hl (fun h => ha (String.ext h))
    · simp

/-- A join of good components is empty only for the empty list. -/
theorem joinComps_eq_empty (l : List String) (hg : ∀ c ∈ l, goodComp c)
    (h : joinComps l = "") : l = [] := by
  rcases l with _ | ⟨a, t⟩
  · rfl
  · exfalso
    have ha : goodComp a := hg a (List.mem_cons_self _ _)
    have hh := joinComps_head a t ha.1
    rw [h] at hh
    rcases hl : a.toList with _ | ⟨c, cs⟩
    · exact ha.1 (String.ext hl)
    · rw [hl] at hh
      simp at hh

/-- Every absolute output of `path.Clean` is a rooted join of good
components. -/
theorem goPathClean_abs_struct (p : String)
    (h : goIsAbs (goPathClean p) = true) :
    ∃ l, (∀ c ∈ l, goodComp c) ∧ goPathClean p = "/" ++ joinComps l := by
  by_cases hp : p = ""
  · subst hp; exact absurd h (by decide)
  · have hgood : ∀ rooted, ∀ c ∈ (cleanFold rooted [] (pathComps p)).reverse,
        goodComp c := by
      intro rooted c hc
      rw [List.mem_reverse] at hc
      exact cleanFold_good (pathComps p) [] rooted (by simp)
        (compsAux_good p.toList [] (by simp)) c hc
    by_cases hro : goIsAbs p = true
    · by_cases hj : joinComps ((cleanFold true [] (pathComps p)).reverse) = ""
      · refine ⟨[], by simp, ?_⟩
        rw [goPathClean, if_neg hp, if_pos hro, if_pos hj]
        apply String.ext
        simp [String.data_append]
        rfl
      · refine ⟨(cleanFold true [] (pathComps p)).reverse, hgood true, ?_⟩
        rw [goPathClean, if_neg hp, if_pos hro, if_neg hj]
    · exfalso
      rw [goPathClean, if_neg hp, if_neg hro] at h
      by_cases hj : joinComps ((cleanFold false [] (pathComps p)).reverse) = ""
      · rw [if_pos hj] at h
        exact absurd h (by decide)
      · rw [if_neg hj] at h
        rcases hl : (cleanFold false [] (pathComps p)).reverse with _ | ⟨a, t⟩
        · rw [hl] at hj
          exact hj rfl
        · have ha : goodComp a := by
            refine hgood false a ?_
            rw [hl]
            exact List.mem_cons_self _ _
          have hh := joinComps_head a t ha.1
          rw [hl] at h
          rw [goIsAbs, hh] at h
          rcases hal : a.toList with _ | ⟨c, cs⟩
          · exact ha.1 (String.ext hal)
          · rw [hal] at h
            have hc : c ≠ '/' := by
              intro he
              subst he
              exact ha.2 (by rw [hal]; exact List.mem_cons_self _ _)
            simp at h
            exact hc h

/-- On cleaned absolute paths, a strict component-descendant destination
passes the source's slash-prefix test (source not the root). -/
theorem hasPref_of_descendant (op np : String) (l1 l2 : List String)
    (hg1 : ∀ c ∈ l1, goodComp c) (hg2 : ∀ c ∈ l2, goodComp c)
    (hop : op = "/" ++ joinComps l1) (hnp : np = "/" ++ joinComps l2)
    (hne : op ≠ "/") (hd : isStrictDescendant np op = true) :
    strHasPref np (op ++ "/") = true := by
  have hc1 : pathComps op = l1 := by rw [hop]; exact pathComps_root_join l1 hg1
  have hc2 : pathComps np = l2 := by rw [hnp]; exact pathComps_root_join l2 hg2
  rw [isStrictDescendant, hc1, hc2] at hd
  rw [Bool.and_eq_true] at hd
  obtain ⟨hd1, hd2⟩ := hd
  have hd2' : l1.length < l2.length := of_decide_eq_true hd2
  obtain ⟨l3, hl3⟩ := List.isPrefixOf_iff_prefix.mp hd1
  have hl3ne : l3 ≠ [] := by
    intro h
    rw [h, List.append_nil] at hl3
    rw [hl3] at hd2'
    exact lt_irrefl _ hd2'
  have hl1ne : l1 ≠ [] := by
    intro h
    apply hne
    rw [hop, h]
    apply String.ext
    simp [String.data_append]
    rfl
  have hj : joinComps l2 = joinComps l1 ++ "/" ++ joinComps l3 := by
    rw [← hl3]
    exact joinComps_append l1 l3 hl1ne hl3ne
  rw [strHasPref]
  apply List.isPrefixOf_iff_prefix.mpr
  rw [hnp, hop, hj]
  simp only [toList_append]
  refine ⟨(joinComps l3).toList, ?_⟩
  simp [List.append_assoc]

/-- On a cleaned absolute destination, the slash-prefix test against the
root source `/` never fires (cleaned paths have no double slash). -/
theorem root_no_hasPref (np : String) (l2 : List String)
    (hg2 : ∀ c ∈ l2, goodComp c) (hnp : np = "/" ++ joinComps l2) :
    strHasPref np (("/" : String) ++ "/") = false := by
  apply Bool.eq_false_iff.mpr
  intro h
  rw [strHasPref] at h
  obtain ⟨t, ht⟩ := List.isPrefixOf_iff_prefix.mp h
  rw [hnp] at ht
  have ht2 : '/' :: '/' :: t = '/' :: (joinComps l2).toList := ht
  have ht3 : (joinComps l2).toList = '/' :: t := by
    have := List.cons.injEq '/' ('/' :: t) '/' ((joinComps l2).toList) ▸ ht2
    exact this.2.symm
  rcases l2 with _ | ⟨a, bs⟩
  · simp only [joinComps] at ht3
    exact List.noConfusion ht3
  · have ha : goodComp a := hg2 a (List.mem_cons_self _ _)
    have hh := joinComps_head a bs ha.1
    rw [ht3] at hh
    rcases hal : a.toList with _ | ⟨c, cs⟩
    · exact ha.1 (String.ext hal)
    · rw [hal] at hh
      simp at hh
      apply ha.2
      rw [hal, ← hh]
      exact List.mem_cons_self _ _

/-- On cleaned absolute paths, a destination passing the slash-prefix
test is a strict component-descendant of the source. -/
theorem descendant_of_hasPref (op np : String) (l1 l2 : List String)
    (hg1 : ∀ c ∈ l1, goodComp c) (hg2 : ∀ c ∈ l2, goodComp c)
    (hop : op = "/" ++ joinComps l1) (hnp : np = "/" ++ joinComps l2)
    (h : strHasPref np (op ++ "/") = true) :
    isStrictDescendant np op = true := by
  have hc1 : pathComps op = l1 := by rw [hop]; exact pathComps_root_join l1 hg1
  have hc2 : pathComps np = l2 := by rw [hnp]; exact pathComps_root_join l2 hg2
  rw [strHasPref] at h
  obtain ⟨t, ht⟩ := List.isPrefixOf_iff_prefix.mp h
  rw [toList_append] at ht
  have hnpt : np.toList = op.toList ++ ('/' :: t) := by
    rw [← ht]
    simp [List.append_assoc]
  have hcomp : pathComps np = pathComps op ++ compsAux t [] := by
    rw [pathComps, pathComps, hnpt, compsAux_split]
  rw [hc1, hc2] at hcomp
  have hX : compsAux t [] ≠ [] := by
    intro hx
    rw [hx, List.append_nil] at hcomp
    have heq : np = op := by rw [hnp, hop, hcomp]
    have hlen := congrArg (fun s : String => s.toList.length) heq
    simp only at hlen
    rw [hnpt] at hlen
    simp [List.length_append] at hlen
  rw [isStrictDescendant, hc1, hc2, hcomp]
  rw [Bool.and_eq_true]
  refine ⟨List.isPrefixOf_iff_prefix.mpr ⟨compsAux t [], rfl⟩, ?_⟩
  apply decide_eq_true
  rw [List.length_append]
  have := List.length_pos.mpr hX
  omega

/-- On cleaned absolute paths, the source's slash-prefix test is exactly
"the source is not the root and the destination is a strict
component-descendant of the source". -/
theorem hasPref_slash_iff (oldpath newpath : String)
    (h1 : goIsAbs (goPathClean newpath) = true)
    (h2 : goIsAbs (goPathClean oldpath) = true) :
    strHasPref (goPathClean newpath) (goPathClean oldpath ++ "/") =
      (decide (goPathClean oldpath ≠ "/") &&
        isStrictDescendant (goPathClean newpath) (goPathClean oldpath)) := by
  obtain ⟨l1, hg1, hop⟩ := goPathClean_abs_struct oldpath h2
  obtain ⟨l2, hg2, hnp⟩ := goPathClean_abs_struct newpath h1
  by_cases hr : goPathClean oldpath = "/"
  · rw [hr, root_no_hasPref (goPathClean newpath) l2 hg2 hnp]
    simp
  · by_cases hd : isStrictDescendant (goPathClean newpath) (goPathClean oldpath) = true
    · rw [hd, hasPref_of_descendant _ _ l1 l2 hg1 hg2 hop hnp hr hd]
      simp [hr]
    · have hd2 : isStrictDescendant (goPathClean newpath) (goPathClean oldpath)
          = false := Bool.eq_false_iff.mpr hd
      rw [hd2]
      have hF : strHasPref (goPathClean newpath) (goPathClean oldpath ++ "/")
          = false := by
        apply Bool.eq_false_iff.mpr
        intro hT
        exact hd (descendant_of_hasPref _ _ l1 l2 hg1 hg2 hop hnp hT)
      rw [hF]
      simp

/-- C6 counterexample: moving the root directory below itself is not
caught. `/a` is a strict descendant of `/` (its component list strictly
extends the root's empty one), yet `safeRenameDir` over a backend whose
stat reports not-found reaches the backend rename instead of failing
with `ForbiddenDocMove`: the slash-prefix test compares against `"//"`,
which no cleaned path starts with. -/
theorem safeRenameDir_root_descendant_counterexample :
    isStrictDescendant (goPathClean "/a") (goPathClean "/") = true ∧
    safeRenameDir (fun _ => some Err.notExist) "/" "/a"
      = RenameDirResult.renamed "/" "/a" := by
  exact ⟨by decide, by decide⟩

/-- C6 (amended): for every directory rename, on the cleaned paths:
a non-absolute source or destination fails with `NonAbsolutePath`; a
destination that is a strict descendant of the source fails with
`ForbiddenDocMove` — except when the source is the root `/`, which the
slash-prefix test cannot catch; with those checks passed, an existing
destination fails with the already-exists error; and the backend rename
is reached only when both paths are absolute, the descendant test (as
implemented) did not fire, and the destination statted as not-found. -/
theorem safeRenameDir_validation_amended (stat : String → Option Err)
    (oldpath newpath : String) :
    ((goIsAbs (goPathClean newpath) = false ∨ goIsAbs (goPathClean oldpath) = false) →
      safeRenameDir stat oldpath newpath = .failed Err.nonAbsolutePath)
  ∧ (goIsAbs (goPathClean newpath) = true → goIsAbs (goPathClean oldpath) = true →
      goPathClean oldpath ≠ "/" →
      isStrictDescendant (goPathClean newpath) (goPathClean oldpath) = true →
      safeRenameDir stat oldpath newpath = .failed Err.forbiddenDocMove)
  ∧ (goIsAbs (goPathClean newpath) = true → goIsAbs (goPathClean oldpath) = true →
      (goPathClean oldpath = "/" ∨
        isStrictDescendant (goPathClean newpath) (goPathClean oldpath) = false) →
      stat (goPathClean newpath) = none →
      safeRenameDir stat oldpath newpath = .failed Err.errExist)
  ∧ (∀ o n, safeRenameDir stat oldpath newpath = .renamed o n →
      goIsAbs (goPathClean newpath) = true ∧ goIsAbs (goPathClean oldpath) = true ∧
      (goPathClean oldpath = "/" ∨
        isStrictDescendant (goPathClean newpath) (goPathClean oldpath) = false) ∧
      o = goPathClean oldpath ∧ n = goPathClean newpath ∧
      ∃ e, stat (goPathClean newpath) = some e ∧ goIsNotExist e = true) := by
  refine ⟨?_, ?_, ?_, ?_⟩
  · intro h
    rcases h with h | h <;> simp [safeRenameDir, h]
  · intro h1 h2 hr hd
    have hpref : strHasPref (goPathClean newpath) (goPathClean oldpath ++ "/")
        = true := by
      rw [hasPref_slash_iff oldpath newpath h1 h2, hd]
      simp [hr]
    simp [safeRenameDir, h1, h2, hpref]
  · intro h1 h2 hor hstat
    have hpref : strHasPref (goPathClean newpath) (goPathClean oldpath ++ "/")
        = false := by
      rw [hasPref_slash_iff oldpath newpath h1 h2]
      rcases hor with hor | hor <;> simp [hor]
    simp [safeRenameDir, h1, h2, hpref, hstat]
  · intro o n h
    by_cases h1 : goIsAbs (goPathClean newpath) = true
    · by_cases h2 : goIsAbs (goPathClean oldpath) = true
      · by_cases hpref : strHasPref (goPathClean newpath)
            (goPathClean oldpath ++ "/") = true
        · exfalso
          simp [safeRenameDir, h1, h2, hpref] at h
        · have hprefF : strHasPref (goPathClean newpath)
              (goPathClean oldpath ++ "/") = false := Bool.eq_false_iff.mpr hpref
          have hor : goPathClean oldpath = "/" ∨
              isStrictDescendant (goPathClean newpath) (goPathClean oldpath)
                = false := by
            by_cases hr : goPathClean oldpath = "/"
            · exact Or.inl hr
            · right
              have hdec : decide (goPathClean oldpath ≠ "/") = true :=
                decide_eq_true hr
              have hiff := hasPref_slash_iff oldpath newpath h1 h2
              rw [hprefF, hdec, Bool.true_and] at hiff
              exact hiff.symm
          rcases hstat : stat (goPathClean newpath) with _ | e
          · exfalso
            simp [safeRenameDir, h1, h2, hprefF, hstat] at h
          · by_cases hne : goIsNotExist e = true
            · have heq : safeRenameDir stat oldpath newpath
                  = .renamed (goPathClean oldpath) (goPathClean newpath) := by
                simp [safeRenameDir, h1, h2, hprefF, hstat, hne]
              rw [heq] at h
              injection h with ho hn
              exact ⟨h1, h2, hor, ho.symm, hn.symm, e, hstat ▸ rfl, hne⟩
            · exfalso
              have hne2 : goIsNotExist e = false := Bool.eq_false_iff.mpr hne
              simp [safeRenameDir, h1, h2, hprefF, hstat, hne2] at h
      · exfalso
        have h2f : goIsAbs (goPathClean oldpath) = false := Bool.eq_false_iff.mpr h2
        simp [safeRenameDir, h2f] at h
    · exfalso
      have h1f : goIsAbs (goPathClean newpath) = false := Bool.eq_false_iff.mpr h1
      simp [safeRenameDir, h1f] at h

/-- Witness for `safeRenameDir_validation_amended`: moving `/a` into its
own subtree `/a/b` fails with `ForbiddenDocMove`. -/
theorem safeRenameDir_validation_example :
    (goIsAbs (goPathClean "/a/b") = true ∧ goIsAbs (goPathClean "/a") = true ∧
      goPathClean "/a" ≠ "/" ∧
      isStrictDescendant (goPathClean "/a/b") (goPathClean "/a") = true) ∧
    safeRenameDir (fun _ => some Err.notExist) "/a" "/a/b"
      = RenameDirResult.failed Err.forbiddenDocMove := by
  refine ⟨⟨by decide, by decide, by decide, by decide⟩, ?_⟩
  exact (safeRenameDir_validation_amended (fun _ => some Err.notExist)
    "/a" "/a/b").2.1 (by decide) (by decide) (by decide) (by decide)

end CozyStorage
